import Mathlib

set_option linter.unusedSectionVars false
set_option linter.unusedVariables false

/- A shallow embedding of the Newton-Raphson power flow solver from
power_flow_solver.py, together with spec-side definitions used for
refinement comparisons.  Machine floats are modelled by an abstract
linear ordered field; the trigonometric and complex-phasor primitives
supplied by numpy (cos, sin, abs of a complex, angle of a complex) are
modelled by an abstract bundle of functions, so every definition below
is executable once that bundle and the field are instantiated. -/

namespace PowerFlow

/-- The numeric primitives the solver calls out to: cosine, sine, the
magnitude of a complex number and the angle of a complex number.
Complex numbers are represented as pairs of field elements. -/
structure Numerics (α : Type) where
  cos : α → α
  sin : α → α
  cabs : α × α → α
  cangle : α × α → α

/-- Modelled from the spec: the Bus record of the external power_system
module (not part of the analysed sources).  Identity number, complex
voltage phasor, and the three specified per-unit power quantities. -/
structure Bus (α : Type) where
  number : ℤ
  voltage : α × α
  active_power_generated : α
  active_power_consumed : α
  reactive_power_consumed : α
deriving DecidableEq

/-- Bus type enumerations, from class BusType of power_flow_solver.py. -/
inductive BusType : Type where
  | UNKNOWN : BusType
  | SWING : BusType
  | PV : BusType
  | PQ : BusType
deriving DecidableEq

/-- The bus estimate record, from class _BusEstimate of
power_flow_solver.py.  The bus field of the Python dataclass is a
reference to the bus object; a reference into the ordered bus list is
modelled as the snapshot index of the bus. -/
structure BusEstimate (α : Type) where
  bus : ℕ
  bus_type : BusType
  active_power : α
  reactive_power : α
  active_power_error : α
  reactive_power_error : α
deriving DecidableEq

/-- The state of a PowerFlowSolver: the network snapshot (ordered bus
list and admittance matrix, the latter read-only) plus the
configuration supplied to the constructor.  The estimate caches of the
Python object are recomputed from the bus list on demand; they are in
sync with the bus voltages at every point where the Python code reads
them, because _compute_estimates runs at construction and at the end of
every step. -/
structure Solver (α : Type) where
  buses : List (Bus α)
  Y : List (List (α × α))
  swing_bus_number : ℤ
  max_active_power_error : α
  max_reactive_power_error : α
deriving DecidableEq

variable {α : Type} [LinearOrderedField α]

/-- Placeholder bus used to total out-of-range list reads (the Python
code never performs such reads on the paths modelled here). -/
def defaultBus : Bus α :=
  { number := 0
    voltage := (0, 0)
    active_power_generated := 0
    active_power_consumed := 0
    reactive_power_consumed := 0 }

/-- Placeholder estimate used to total out-of-range list reads. -/
def defaultEstimate : BusEstimate α :=
  { bus := 0
    bus_type := BusType.UNKNOWN
    active_power := 0
    reactive_power := 0
    active_power_error := 0
    reactive_power_error := 0 }

/-- Read the bus object stored at a snapshot index. -/
def busAt (buses : List (Bus α)) (i : ℕ) : Bus α := buses.getD i defaultBus

/-- Entry lookup in the admittance matrix, indexed by snapshot
positions, from self admittance_matrix[i][j]. -/
def Yget (Y : List (List (α × α))) (i j : ℕ) : α × α := (Y.getD i []).getD j (0, 0)

/-- PowerFlowSolver._bus_type: classification of a bus by the
parameters that specify it.  Python float truthiness is nonzeroness. -/
def busType (swing_bus_number : ℤ) (b : Bus α) : BusType :=
  if b.number = swing_bus_number then BusType.SWING
  else if b.active_power_generated ≠ 0 then BusType.PV
  else if b.active_power_consumed ≠ 0 ∨ b.reactive_power_consumed ≠ 0 then BusType.PQ
  else BusType.UNKNOWN

/-- The inner accumulation loop of PowerFlowSolver._bus_power_estimates:
starting from p = 0, q = 0, add the active and reactive contribution of
every destination bus (enumerated with its snapshot index). -/
def busPQsum (N : Numerics α) (Y : List (List (α × α))) (buses : List (Bus α))
    (k : ℕ) (src : Bus α) : α × α :=
  buses.enum.foldl
    (fun pq x =>
      (pq.1 + N.cabs src.voltage * N.cabs x.2.voltage *
          ((Yget Y k x.1).1 * N.cos (N.cangle src.voltage - N.cangle x.2.voltage) +
           (Yget Y k x.1).2 * N.sin (N.cangle src.voltage - N.cangle x.2.voltage)),
       pq.2 + N.cabs src.voltage * N.cabs x.2.voltage *
          ((Yget Y k x.1).1 * N.sin (N.cangle src.voltage - N.cangle x.2.voltage) -
           (Yget Y k x.1).2 * N.cos (N.cangle src.voltage - N.cangle x.2.voltage))))
    (0, 0)

/-- The estimate record built for the bus with snapshot index i and
object src in PowerFlowSolver._bus_power_estimates. -/
def estOf (N : Numerics α) (Y : List (List (α × α))) (buses : List (Bus α))
    (swing_bus_number : ℤ) (i : ℕ) (src : Bus α) : BusEstimate α :=
  { bus := i
    bus_type := busType swing_bus_number src
    active_power := (busPQsum N Y buses i src).1
    reactive_power := (busPQsum N Y buses i src).2
    active_power_error := src.active_power_generated - src.active_power_consumed -
      (busPQsum N Y buses i src).1
    reactive_power_error := -src.reactive_power_consumed - (busPQsum N Y buses i src).2 }

/-- Assignment d[key] = v on a Python dict represented as an
association list in key insertion order: a present key keeps its
position and has its value replaced, a new key is appended. -/
def dictInsert {β : Type} (d : List (ℤ × β)) (key : ℤ) (v : β) : List (ℤ × β) :=
  if d.any (fun p => decide (p.1 = key)) then
    d.map (fun p => if p.1 = key then (key, v) else p)
  else d ++ [(key, v)]

/-- PowerFlowSolver._bus_power_estimates: the dict mapping each bus
number to its power injection estimate, built over the enumerated bus
list. -/
def busPowerEstimates (N : Numerics α) (s : Solver α) : List (ℤ × BusEstimate α) :=
  s.buses.enum.foldl
    (fun ests x => dictInsert ests x.2.number (estOf N s.Y s.buses s.swing_bus_number x.1 x.2))
    []

/-- The values of the estimates dict, in dict order. -/
def estimatesList (N : Numerics α) (s : Solver α) : List (BusEstimate α) :=
  (busPowerEstimates N s).map Prod.snd

/-- PowerFlowSolver._compute_estimates, second line: the sub-dict of
estimates whose bus type is not SWING, in dict order. -/
def pvPqEstimates (N : Numerics α) (s : Solver α) : List (BusEstimate α) :=
  (estimatesList N s).filter (fun e => decide (e.bus_type ≠ BusType.SWING))

/-- PowerFlowSolver._compute_estimates, third line: the sub-dict of
estimates whose bus type is PQ, in dict order. -/
def pqEstimates (N : Numerics α) (s : Solver α) : List (BusEstimate α) :=
  (estimatesList N s).filter (fun e => decide (e.bus_type = BusType.PQ))

/-- PowerFlowSolver.has_converged.  numpy.max over an empty sequence
raises a ValueError, modelled as none. -/
def hasConverged (N : Numerics α) (s : Solver α) : Option Bool :=
  match ((pvPqEstimates N s).map (fun e => |e.active_power_error|)).max?,
        ((pqEstimates N s).map (fun e => |e.reactive_power_error|)).max? with
  | some max_dp, some max_dq =>
      some (decide (max_dp ≤ s.max_active_power_error) &&
            decide (max_dq ≤ s.max_reactive_power_error))
  | _, _ => none

/-- The linear scan mapping a bus number back to its snapshot position,
used in every Jacobian cell of power_flow_solver.py. -/
def snapIdx (buses : List (Bus α)) (n : ℤ) : ℕ :=
  buses.findIdx (fun b => decide (b.number = n))

/-- One cell of the Jacobian submatrix J11 (PowerFlowSolver._jacobian_11),
for row estimate src and column estimate dst. -/
def j11entry (N : Numerics α) (Y : List (List (α × α))) (buses : List (Bus α))
    (src dst : BusEstimate α) : α :=
  if snapIdx buses (busAt buses src.bus).number ≠ snapIdx buses (busAt buses dst.bus).number then
    N.cabs (busAt buses src.bus).voltage * N.cabs (busAt buses dst.bus).voltage *
      ((Yget Y (snapIdx buses (busAt buses src.bus).number)
          (snapIdx buses (busAt buses dst.bus).number)).1 *
        N.sin (N.cangle (busAt buses src.bus).voltage - N.cangle (busAt buses dst.bus).voltage) -
       (Yget Y (snapIdx buses (busAt buses src.bus).number)
          (snapIdx buses (busAt buses dst.bus).number)).2 *
        N.cos (N.cangle (busAt buses src.bus).voltage - N.cangle (busAt buses dst.bus).voltage))
  else
    -src.reactive_power - N.cabs (busAt buses src.bus).voltage ^ 2 *
      (Yget Y (snapIdx buses (busAt buses src.bus).number)
        (snapIdx buses (busAt buses dst.bus).number)).2

/-- One cell of the Jacobian submatrix J12 (PowerFlowSolver._jacobian_12). -/
def j12entry (N : Numerics α) (Y : List (List (α × α))) (buses : List (Bus α))
    (src dst : BusEstimate α) : α :=
  if snapIdx buses (busAt buses src.bus).number ≠ snapIdx buses (busAt buses dst.bus).number then
    N.cabs (busAt buses src.bus).voltage *
      ((Yget Y (snapIdx buses (busAt buses src.bus).number)
          (snapIdx buses (busAt buses dst.bus).number)).1 *
        N.cos (N.cangle (busAt buses src.bus).voltage - N.cangle (busAt buses dst.bus).voltage) +
       (Yget Y (snapIdx buses (busAt buses src.bus).number)
          (snapIdx buses (busAt buses dst.bus).number)).2 *
        N.sin (N.cangle (busAt buses src.bus).voltage - N.cangle (busAt buses dst.bus).voltage))
  else
    src.active_power / N.cabs (busAt buses src.bus).voltage +
      (Yget Y (snapIdx buses (busAt buses src.bus).number)
        (snapIdx buses (busAt buses dst.bus).number)).1 *
        N.cabs (busAt buses src.bus).voltage

/-- One cell of the Jacobian submatrix J21 (PowerFlowSolver._jacobian_21). -/
def j21entry (N : Numerics α) (Y : List (List (α × α))) (buses : List (Bus α))
    (src dst : BusEstimate α) : α :=
  if snapIdx buses (busAt buses src.bus).number ≠ snapIdx buses (busAt buses dst.bus).number then
    -(N.cabs (busAt buses src.bus).voltage) * N.cabs (busAt buses dst.bus).voltage *
      ((Yget Y (snapIdx buses (busAt buses src.bus).number)
          (snapIdx buses (busAt buses dst.bus).number)).1 *
        N.cos (N.cangle (busAt buses src.bus).voltage - N.cangle (busAt buses dst.bus).voltage) +
       (Yget Y (snapIdx buses (busAt buses src.bus).number)
          (snapIdx buses (busAt buses dst.bus).number)).2 *
        N.sin (N.cangle (busAt buses src.bus).voltage - N.cangle (busAt buses dst.bus).voltage))
  else
    src.active_power -
      (Yget Y (snapIdx buses (busAt buses src.bus).number)
        (snapIdx buses (busAt buses dst.bus).number)).1 *
        N.cabs (busAt buses src.bus).voltage ^ 2

/-- One cell of the Jacobian submatrix J22 (PowerFlowSolver._jacobian_22). -/
def j22entry (N : Numerics α) (Y : List (List (α × α))) (buses : List (Bus α))
    (src dst : BusEstimate α) : α :=
  if snapIdx buses (busAt buses src.bus).number ≠ snapIdx buses (busAt buses dst.bus).number then
    N.cabs (busAt buses src.bus).voltage *
      ((Yget Y (snapIdx buses (busAt buses src.bus).number)
          (snapIdx buses (busAt buses dst.bus).number)).1 *
        N.sin (N.cangle (busAt buses src.bus).voltage - N.cangle (busAt buses dst.bus).voltage) -
       (Yget Y (snapIdx buses (busAt buses src.bus).number)
          (snapIdx buses (busAt buses dst.bus).number)).2 *
        N.cos (N.cangle (busAt buses src.bus).voltage - N.cangle (busAt buses dst.bus).voltage))
  else
    src.reactive_power / N.cabs (busAt buses src.bus).voltage -
      (Yget Y (snapIdx buses (busAt buses src.bus).number)
        (snapIdx buses (busAt buses dst.bus).number)).2 *
        N.cabs (busAt buses src.bus).voltage

/-- Number of rows of J11 and J12: the size of the PV and PQ subset. -/
def npv (N : Numerics α) (s : Solver α) : ℕ := (pvPqEstimates N s).length

/-- Number of rows of J21 and J22: the size of the PQ subset. -/
def npq (N : Numerics α) (s : Solver α) : ℕ := (pqEstimates N s).length

/-- Dimension of the full Jacobian assembled by numpy.concatenate. -/
def dim (N : Numerics α) (s : Solver α) : ℕ := npv N s + npq N s

/-- The cell at row r and column c of the block matrix
[[J11, J12], [J21, J22]] built by PowerFlowSolver._jacobian. -/
def jacEntry (N : Numerics α) (s : Solver α) (r c : ℕ) : α :=
  if r < npv N s then
    if c < npv N s then
      j11entry N s.Y s.buses ((pvPqEstimates N s).getD r defaultEstimate)
        ((pvPqEstimates N s).getD c defaultEstimate)
    else
      j12entry N s.Y s.buses ((pvPqEstimates N s).getD r defaultEstimate)
        ((pqEstimates N s).getD (c - npv N s) defaultEstimate)
  else
    if c < npv N s then
      j21entry N s.Y s.buses ((pqEstimates N s).getD (r - npv N s) defaultEstimate)
        ((pvPqEstimates N s).getD c defaultEstimate)
    else
      j22entry N s.Y s.buses ((pqEstimates N s).getD (r - npv N s) defaultEstimate)
        ((pqEstimates N s).getD (c - npv N s) defaultEstimate)

/-- PowerFlowSolver._jacobian as a square matrix of dimension dim. -/
def jacobian (N : Numerics α) (s : Solver α) :
    Matrix (Fin (dim N s)) (Fin (dim N s)) α :=
  Matrix.of fun r c => jacEntry N s r.val c.val

/-- The stacked mismatch list built in PowerFlowSolver._compute_corrections:
active power errors of the PV and PQ subset followed by reactive power
errors of the PQ subset. -/
def errList (N : Numerics α) (s : Solver α) : List α :=
  (pvPqEstimates N s).map (fun e => e.active_power_error) ++
    (pqEstimates N s).map (fun e => e.reactive_power_error)

/-- A list read as a vector indexed by Fin n, defaulting to 0. -/
def vecOf (n : ℕ) (xs : List α) : Fin n → α := fun i => xs.getD i.val 0

/-- The stacked mismatch list as a vector of dimension dim. -/
def errVec (N : Numerics α) (s : Solver α) : Fin (dim N s) → α :=
  vecOf (dim N s) (errList N s)

/-- numpy.linalg.inv in exact arithmetic: defined exactly on the
matrices with nonzero determinant, raising LinAlgError (none)
otherwise. -/
def minv {n : ℕ} (A : Matrix (Fin n) (Fin n) α) : Option (Matrix (Fin n) (Fin n) α) :=
  if A.det = 0 then none else some (A.det⁻¹ • A.adjugate)

/-- PowerFlowSolver._compute_corrections: multiply the inverse Jacobian
by the stacked mismatch vector and flatten the column back to a list. -/
def corrections (N : Numerics α) (s : Solver α) : Option (List α) :=
  (minv (jacobian N s)).map (fun Jinv => List.ofFn (Jinv.mulVec (errVec N s)))

/-- magnitude times e to the j theta: the polar recomposition written
on both assignment lines of PowerFlowSolver._apply_corrections. -/
def recompose (N : Numerics α) (magnitude angle : α) : α × α :=
  (magnitude * N.cos angle, magnitude * N.sin angle)

/-- Overwrite the element at a given position of a list, leaving the
list unchanged when the position is out of range. -/
def modifyIdx (f : Bus α → Bus α) : ℕ → List (Bus α) → List (Bus α)
  | _, [] => []
  | 0, b :: rest => f b :: rest
  | i + 1, b :: rest => b :: modifyIdx f i rest

/-- One step of the first loop of PowerFlowSolver._apply_corrections:
write to the referenced bus the voltage recomposed from its current
magnitude and its current angle plus the angle correction. -/
def angleStep (N : Numerics α) (bs : List (Bus α)) (ce : α × BusEstimate α) :
    List (Bus α) :=
  modifyIdx
    (fun b => { b with voltage := (recompose N (N.cabs (busAt bs ce.2.bus).voltage)
        (N.cangle (busAt bs ce.2.bus).voltage + ce.1)) })
    ce.2.bus bs

/-- One step of the second loop of PowerFlowSolver._apply_corrections:
write to the referenced bus the voltage recomposed from its current
magnitude plus the magnitude correction and its current angle. -/
def magStep (N : Numerics α) (bs : List (Bus α)) (ce : α × BusEstimate α) :
    List (Bus α) :=
  modifyIdx
    (fun b => { b with voltage := (recompose N (N.cabs (busAt bs ce.2.bus).voltage + ce.1)
        (N.cangle (busAt bs ce.2.bus).voltage)) })
    ce.2.bus bs

/-- The result of one angle update on a bus: the angle correction is
added to the current angle, the magnitude is kept, and the voltage is
recomposed in polar form. -/
def angleUpdated (N : Numerics α) (b : Bus α) (c : α) : Bus α :=
  { b with voltage := (recompose N (N.cabs b.voltage) (N.cangle b.voltage + c)) }

/-- The result of one magnitude update on a bus: the magnitude
correction is added to the current magnitude, the angle is kept, and
the voltage is recomposed in polar form. -/
def magUpdated (N : Numerics α) (b : Bus α) (c : α) : Bus α :=
  { b with voltage := (recompose N (N.cabs b.voltage + c) (N.cangle b.voltage)) }

/-- The first loop of PowerFlowSolver._apply_corrections, over the
angle corrections zipped with the PV and PQ subset. -/
def applyAnglePass (N : Numerics α) (bs : List (Bus α))
    (pairs : List (α × BusEstimate α)) : List (Bus α) :=
  pairs.foldl (angleStep N) bs

/-- The second loop of PowerFlowSolver._apply_corrections, over the
magnitude corrections zipped with the PQ subset. -/
def applyMagnitudePass (N : Numerics α) (bs : List (Bus α))
    (pairs : List (α × BusEstimate α)) : List (Bus α) :=
  pairs.foldl (magStep N) bs

/-- PowerFlowSolver._apply_corrections: split the correction list at
the size of the PV and PQ subset, run the angle pass, then run the
magnitude pass on the result. -/
def applyCorrections (N : Numerics α) (bs : List (Bus α))
    (pv pq : List (BusEstimate α)) (corr : List α) : List (Bus α) :=
  applyMagnitudePass N (applyAnglePass N bs ((corr.take pv.length).zip pv))
    ((corr.drop pv.length).zip pq)

/-- PowerFlowSolver.step: build the Jacobian, solve for corrections
(propagating the linear algebra error as none), apply them to the
buses.  The estimate recomputation that ends the Python method is
implicit: estimates are derived from the bus list on demand. -/
def step (N : Numerics α) (s : Solver α) : Option (Solver α) :=
  (corrections N s).map fun corr =>
    { s with buses := applyCorrections N s.buses (pvPqEstimates N s) (pqEstimates N s) corr }

/-- n repetitions of step, propagating the error case. -/
def stepIter (N : Numerics α) : ℕ → Solver α → Option (Solver α)
  | 0, s => some s
  | n + 1, s => (step N s).bind (stepIter N n)

/-- Spec formula for the calculated active power injection of bus k:
the sum over all buses i of Vk Vi (Gki cos(tk - ti) + Bki sin(tk - ti)),
transcribed from section 4.2 of the specification. -/
def specP (N : Numerics α) (Y : List (List (α × α))) (buses : List (Bus α))
    (k : ℕ) (src : Bus α) : α :=
  (buses.enum.map (fun x =>
    N.cabs src.voltage * N.cabs x.2.voltage *
      ((Yget Y k x.1).1 * N.cos (N.cangle src.voltage - N.cangle x.2.voltage) +
       (Yget Y k x.1).2 * N.sin (N.cangle src.voltage - N.cangle x.2.voltage)))).sum

/-- Spec formula for the calculated reactive power injection of bus k:
the sum over all buses i of Vk Vi (Gki sin(tk - ti) - Bki cos(tk - ti)),
transcribed from section 4.2 of the specification. -/
def specQ (N : Numerics α) (Y : List (List (α × α))) (buses : List (Bus α))
    (k : ℕ) (src : Bus α) : α :=
  (buses.enum.map (fun x =>
    N.cabs src.voltage * N.cabs x.2.voltage *
      ((Yget Y k x.1).1 * N.sin (N.cangle src.voltage - N.cangle x.2.voltage) -
       (Yget Y k x.1).2 * N.cos (N.cangle src.voltage - N.cangle x.2.voltage)))).sum

/-- Spec formula for a J11 cell, transcribed from section 4.3 of the
specification: the diagonal case applies exactly when row and column
refer to the same bus, and the admittance matrix is indexed by the
snapshot positions of the two buses. -/
def specJ11 (N : Numerics α) (Y : List (List (α × α))) (buses : List (Bus α))
    (src dst : BusEstimate α) : α :=
  if src.bus = dst.bus then
    -src.reactive_power - N.cabs (busAt buses src.bus).voltage ^ 2 * (Yget Y src.bus dst.bus).2
  else
    N.cabs (busAt buses src.bus).voltage * N.cabs (busAt buses dst.bus).voltage *
      ((Yget Y src.bus dst.bus).1 *
        N.sin (N.cangle (busAt buses src.bus).voltage - N.cangle (busAt buses dst.bus).voltage) -
       (Yget Y src.bus dst.bus).2 *
        N.cos (N.cangle (busAt buses src.bus).voltage - N.cangle (busAt buses dst.bus).voltage))

/-- Spec formula for a J12 cell, transcribed from section 4.3 of the
specification. -/
def specJ12 (N : Numerics α) (Y : List (List (α × α))) (buses : List (Bus α))
    (src dst : BusEstimate α) : α :=
  if src.bus = dst.bus then
    src.active_power / N.cabs (busAt buses src.bus).voltage +
      (Yget Y src.bus dst.bus).1 * N.cabs (busAt buses src.bus).voltage
  else
    N.cabs (busAt buses src.bus).voltage *
      ((Yget Y src.bus dst.bus).1 *
        N.cos (N.cangle (busAt buses src.bus).voltage - N.cangle (busAt buses dst.bus).voltage) +
       (Yget Y src.bus dst.bus).2 *
        N.sin (N.cangle (busAt buses src.bus).voltage - N.cangle (busAt buses dst.bus).voltage))

/-- Spec formula for a J21 cell, transcribed from section 4.3 of the
specification. -/
def specJ21 (N : Numerics α) (Y : List (List (α × α))) (buses : List (Bus α))
    (src dst : BusEstimate α) : α :=
  if src.bus = dst.bus then
    src.active_power - (Yget Y src.bus dst.bus).1 * N.cabs (busAt buses src.bus).voltage ^ 2
  else
    -(N.cabs (busAt buses src.bus).voltage) * N.cabs (busAt buses dst.bus).voltage *
      ((Yget Y src.bus dst.bus).1 *
        N.cos (N.cangle (busAt buses src.bus).voltage - N.cangle (busAt buses dst.bus).voltage) +
       (Yget Y src.bus dst.bus).2 *
        N.sin (N.cangle (busAt buses src.bus).voltage - N.cangle (busAt buses dst.bus).voltage))

/-- Spec formula for a J22 cell, transcribed from section 4.3 of the
specification. -/
def specJ22 (N : Numerics α) (Y : List (List (α × α))) (buses : List (Bus α))
    (src dst : BusEstimate α) : α :=
  if src.bus = dst.bus then
    src.reactive_power / N.cabs (busAt buses src.bus).voltage -
      (Yget Y src.bus dst.bus).2 * N.cabs (busAt buses src.bus).voltage
  else
    N.cabs (busAt buses src.bus).voltage *
      ((Yget Y src.bus dst.bus).1 *
        N.sin (N.cangle (busAt buses src.bus).voltage - N.cangle (busAt buses dst.bus).voltage) -
       (Yget Y src.bus dst.bus).2 *
        N.cos (N.cangle (busAt buses src.bus).voltage - N.cangle (busAt buses dst.bus).voltage))

/-- Spec description of the full Jacobian cell at row r and column c:
the block matrix [[J11, J12], [J21, J22]] over the ordered non-swing
and load subsets, transcribed from section 4.3 of the specification. -/
def specJacEntry (N : Numerics α) (s : Solver α) (r c : ℕ) : α :=
  if r < npv N s then
    if c < npv N s then
      specJ11 N s.Y s.buses ((pvPqEstimates N s).getD r defaultEstimate)
        ((pvPqEstimates N s).getD c defaultEstimate)
    else
      specJ12 N s.Y s.buses ((pvPqEstimates N s).getD r defaultEstimate)
        ((pqEstimates N s).getD (c - npv N s) defaultEstimate)
  else
    if c < npv N s then
      specJ21 N s.Y s.buses ((pqEstimates N s).getD (r - npv N s) defaultEstimate)
        ((pvPqEstimates N s).getD c defaultEstimate)
    else
      specJ22 N s.Y s.buses ((pqEstimates N s).getD (r - npv N s) defaultEstimate)
        ((pqEstimates N s).getD (c - npv N s) defaultEstimate)

/-- A concrete instantiation of the numeric primitives over the
rationals, used for witnesses: cos is constantly 1, sin constantly 0,
the magnitude of a pair is its first component and the angle its
second component. -/
def Nq : Numerics ℚ :=
  { cos := fun _ => 1
    sin := fun _ => 0
    cabs := fun v => v.1
    cangle := fun v => v.2 }

/-- A concrete two-bus snapshot: bus 1 is the swing bus, bus 2 a load
bus consuming 1 pu active and 1 pu reactive power, with a concrete
admittance matrix and integer thresholds. -/
def sC2 : Solver ℚ :=
  { buses := [{ number := 1
                voltage := (1, 0)
                active_power_generated := 0
                active_power_consumed := 0
                reactive_power_consumed := 0 },
              { number := 2
                voltage := (1, 0)
                active_power_generated := 0
                active_power_consumed := 1
                reactive_power_consumed := 1 }]
    Y := [[(1, 0), (0, 0)], [(0, 1), (1, -1)]]
    swing_bus_number := 1
    max_active_power_error := 1
    max_reactive_power_error := 1 }

/-- The state obtained from sC2 by one solver step: only the voltage
of bus 2 changes. -/
def sC2next : Solver ℚ :=
  { buses := [{ number := 1
                voltage := (1, 0)
                active_power_generated := 0
                active_power_consumed := 0
                reactive_power_consumed := 0 },
              { number := 2
                voltage := (0, 0)
                active_power_generated := 0
                active_power_consumed := 1
                reactive_power_consumed := 1 }]
    Y := [[(1, 0), (0, 0)], [(0, 1), (1, -1)]]
    swing_bus_number := 1
    max_active_power_error := 1
    max_reactive_power_error := 1 }

/-- The value of the Jacobian of sC2. -/
def JC2 : Matrix (Fin 2) (Fin 2) ℚ := !![1, 2; 0, 1]

/-- The explicit inverse of the Jacobian of sC2. -/
def JinvC2 : Matrix (Fin 2) (Fin 2) ℚ := !![1, -2; 0, 1]

/-- The Jacobian of sC2 read at its reduced dimension. -/
def Jc : Matrix (Fin 2) (Fin 2) ℚ := jacobian Nq sC2

/-- A concrete three-bus snapshot containing an unclassified bus: bus 1
is the swing bus, bus 2 declares no generation and no consumption, and
bus 3 is a load bus.  The admittance matrix is chosen so that both
mismatches of bus 3 are exactly zero while bus 2 has an active power
mismatch of -5. -/
def sC1 : Solver ℚ :=
  { buses := [{ number := 1
                voltage := (1, 0)
                active_power_generated := 0
                active_power_consumed := 0
                reactive_power_consumed := 0 },
              { number := 2
                voltage := (1, 0)
                active_power_generated := 0
                active_power_consumed := 0
                reactive_power_consumed := 0 },
              { number := 3
                voltage := (1, 0)
                active_power_generated := 0
                active_power_consumed := 1
                reactive_power_consumed := 1 }]
    Y := [[(0, 0), (0, 0), (0, 0)], [(5, 0), (0, 0), (0, 0)], [(-1, 1), (0, 0), (0, 0)]]
    swing_bus_number := 1
    max_active_power_error := 1
    max_reactive_power_error := 1 }

/-- A concrete snapshot with no load bus: bus 1 is the swing bus and
bus 2 a generation bus. -/
def sC10 : Solver ℚ :=
  { buses := [{ number := 1
                voltage := (1, 0)
                active_power_generated := 0
                active_power_consumed := 0
                reactive_power_consumed := 0 },
              { number := 2
                voltage := (1, 0)
                active_power_generated := 1
                active_power_consumed := 0
                reactive_power_consumed := 0 }]
    Y := [[(0, 0), (0, 0)], [(0, 0), (0, 0)]]
    swing_bus_number := 1
    max_active_power_error := 1
    max_reactive_power_error := 1 }

variable {β γ : Type}

lemma dictInsert_not_mem_key (d : List (ℤ × β)) (key : ℤ) (v : β)
    (h : ∀ p ∈ d, p.1 ≠ key) : dictInsert d key v = d ++ [(key, v)] := by
  have hany : d.any (fun p => decide (p.1 = key)) = false := by
    rw [List.any_eq_false]
    intro p hp
    simpa using h p hp
  simp [dictInsert, hany]

lemma foldl_dictInsert_eq_append (kf : γ → ℤ) (vf : γ → β) :
    ∀ (l : List γ) (acc : List (ℤ × β)),
      (acc.map Prod.fst ++ l.map kf).Nodup →
      l.foldl (fun d x => dictInsert d (kf x) (vf x)) acc =
        acc ++ l.map (fun x => (kf x, vf x))
  | [], acc, _ => by simp
  | x :: t, acc, h => by
    have hdisj : List.Disjoint (acc.map Prod.fst) (kf x :: t.map kf) := by
      exact List.disjoint_of_nodup_append (by simpa using h)
    have hkey : ∀ p ∈ acc, p.1 ≠ kf x := by
      intro p hp hpk
      exact hdisj (List.mem_map_of_mem Prod.fst hp) (by simp [hpk])
    rw [List.foldl_cons, dictInsert_not_mem_key acc (kf x) (vf x) hkey,
      foldl_dictInsert_eq_append kf vf t (acc ++ [(kf x, vf x)]) (by simpa using h)]
    simp

lemma busPowerEstimates_eq_map (N : Numerics α) (s : Solver α)
    (hnd : (s.buses.map Bus.number).Nodup) :
    busPowerEstimates N s =
      s.buses.enum.map
        (fun x => (x.2.number, estOf N s.Y s.buses s.swing_bus_number x.1 x.2)) := by
  have hkeys : (s.buses.enum.map (fun x : ℕ × Bus α => x.2.number)).Nodup := by
    have h1 : (s.buses.enum.map (fun x : ℕ × Bus α => x.2.number)) =
        (s.buses.enum.map Prod.snd).map Bus.number := by
      rw [List.map_map]
      rfl
    rw [h1, List.enum_map_snd]
    exact hnd
  have := foldl_dictInsert_eq_append (fun x : ℕ × Bus α => x.2.number)
    (fun x : ℕ × Bus α => estOf N s.Y s.buses s.swing_bus_number x.1 x.2)
    s.buses.enum [] (by simpa using hkeys)
  simpa [busPowerEstimates] using this

lemma estimatesList_eq_map (N : Numerics α) (s : Solver α)
    (hnd : (s.buses.map Bus.number).Nodup) :
    estimatesList N s =
      s.buses.enum.map (fun x => estOf N s.Y s.buses s.swing_bus_number x.1 x.2) := by
  rw [estimatesList, busPowerEstimates_eq_map N s hnd, List.map_map]
  rfl

lemma estimatesList_length (N : Numerics α) (s : Solver α)
    (hnd : (s.buses.map Bus.number).Nodup) :
    (estimatesList N s).length = s.buses.length := by
  rw [estimatesList_eq_map N s hnd]
  simp

lemma busAt_eq_getElem (l : List (Bus α)) (i : ℕ) (h : i < l.length) :
    busAt l i = l[i] := List.getD_eq_getElem l defaultBus h

lemma estimatesList_getD (N : Numerics α) (s : Solver α)
    (hnd : (s.buses.map Bus.number).Nodup) (i : ℕ) (hi : i < s.buses.length) :
    (estimatesList N s).getD i defaultEstimate =
      estOf N s.Y s.buses s.swing_bus_number i (busAt s.buses i) := by
  rw [estimatesList_eq_map N s hnd]
  have hlen : i < (s.buses.enum.map
      (fun x => estOf N s.Y s.buses s.swing_bus_number x.1 x.2)).length := by
    simpa using hi
  rw [List.getD_eq_getElem _ _ hlen, List.getElem_map, List.getElem_enum,
    busAt_eq_getElem s.buses i hi]

lemma mem_map_snd_dictInsert {d : List (ℤ × β)} {key : ℤ} {v e : β}
    (h : e ∈ (dictInsert d key v).map Prod.snd) : e ∈ d.map Prod.snd ∨ e = v := by
  unfold dictInsert at h
  by_cases hany : d.any (fun p => decide (p.1 = key)) = true
  · rw [if_pos hany, List.map_map] at h
    obtain ⟨p, hp, hpe⟩ := List.mem_map.mp h
    by_cases hk : p.1 = key
    · right
      simpa [hk] using hpe.symm
    · left
      simp only [Function.comp_apply, if_neg hk] at hpe
      exact hpe ▸ List.mem_map_of_mem Prod.snd hp
  · rw [if_neg hany, List.map_append] at h
    rcases List.mem_append.mp h with h1 | h1
    · exact Or.inl h1
    · right
      simpa using h1

lemma mem_foldl_dictInsert (kf : γ → ℤ) (vf : γ → β) :
    ∀ (l : List γ) (acc : List (ℤ × β)) (e : β),
      e ∈ (l.foldl (fun d x => dictInsert d (kf x) (vf x)) acc).map Prod.snd →
      e ∈ acc.map Prod.snd ∨ ∃ x ∈ l, e = vf x
  | [], acc, e, h => Or.inl h
  | x :: t, acc, e, h => by
    rw [List.foldl_cons] at h
    rcases mem_foldl_dictInsert kf vf t (dictInsert acc (kf x) (vf x)) e h with h1 | h1
    · rcases mem_map_snd_dictInsert h1 with h2 | h2
      · exact Or.inl h2
      · exact Or.inr ⟨x, by simp, h2⟩
    · obtain ⟨y, hy, hye⟩ := h1
      exact Or.inr ⟨y, by simp [hy], hye⟩

lemma mem_estimatesList (N : Numerics α) (s : Solver α) (e : BusEstimate α)
    (he : e ∈ estimatesList N s) :
    ∃ x ∈ s.buses.enum, e = estOf N s.Y s.buses s.swing_bus_number x.1 x.2 := by
  have h := mem_foldl_dictInsert (fun x : ℕ × Bus α => x.2.number)
    (fun x : ℕ × Bus α => estOf N s.Y s.buses s.swing_bus_number x.1 x.2)
    s.buses.enum [] e (by simpa [estimatesList, busPowerEstimates] using he)
  simpa using h

lemma estimatesList_shape (N : Numerics α) (s : Solver α) (e : BusEstimate α)
    (he : e ∈ estimatesList N s) :
    e.bus < s.buses.length ∧
      e = estOf N s.Y s.buses s.swing_bus_number e.bus (busAt s.buses e.bus) := by
  obtain ⟨x, hx, rfl⟩ := mem_estimatesList N s e he
  obtain ⟨i, b⟩ := x
  have hib : s.buses[i]? = some b := by
    simpa [List.mem_enum_iff_getElem?] using hx
  obtain ⟨hlt, hget⟩ := List.getElem?_eq_some.mp hib
  have hbus : busAt s.buses i = b := by
    rw [busAt_eq_getElem s.buses i hlt, hget]
  constructor
  · simpa [estOf] using hlt
  · simp [estOf, hbus]

lemma foldl_pair_add (f g : γ → α) :
    ∀ (l : List γ) (a b : α),
      l.foldl (fun pq x => (pq.1 + f x, pq.2 + g x)) (a, b) =
        (a + (l.map f).sum, b + (l.map g).sum)
  | [], a, b => by simp
  | x :: t, a, b => by
    rw [List.foldl_cons, foldl_pair_add f g t (a + f x) (b + g x)]
    simp [add_assoc]

lemma busPQsum_eq_spec (N : Numerics α) (Y : List (List (α × α)))
    (buses : List (Bus α)) (k : ℕ) (src : Bus α) :
    busPQsum N Y buses k src = (specP N Y buses k src, specQ N Y buses k src) := by
  have h := foldl_pair_add
    (fun x : ℕ × Bus α =>
      N.cabs src.voltage * N.cabs x.2.voltage *
        ((Yget Y k x.1).1 * N.cos (N.cangle src.voltage - N.cangle x.2.voltage) +
         (Yget Y k x.1).2 * N.sin (N.cangle src.voltage - N.cangle x.2.voltage)))
    (fun x : ℕ × Bus α =>
      N.cabs src.voltage * N.cabs x.2.voltage *
        ((Yget Y k x.1).1 * N.sin (N.cangle src.voltage - N.cangle x.2.voltage) -
         (Yget Y k x.1).2 * N.cos (N.cangle src.voltage - N.cangle x.2.voltage)))
    buses.enum 0 0
  simpa [busPQsum, specP, specQ] using h

/-- C4: for every bus of the snapshot, including the swing bus, the
estimate bundle holds the calculated injections given by the explicit
power equations (sums over all buses, including the bus itself) and
the mismatches P generated minus P consumed minus P calculated and
minus Q consumed minus Q calculated. -/
theorem estimates_match_power_equations (N : Numerics α) (s : Solver α)
    (hnd : (s.buses.map Bus.number).Nodup) (i : ℕ) (hi : i < s.buses.length) :
    (estimatesList N s).getD i defaultEstimate =
      { bus := i
        bus_type := busType s.swing_bus_number (busAt s.buses i)
        active_power := specP N s.Y s.buses i (busAt s.buses i)
        reactive_power := specQ N s.Y s.buses i (busAt s.buses i)
        active_power_error := (busAt s.buses i).active_power_generated -
          (busAt s.buses i).active_power_consumed - specP N s.Y s.buses i (busAt s.buses i)
        reactive_power_error := -(busAt s.buses i).reactive_power_consumed -
          specQ N s.Y s.buses i (busAt s.buses i) } := by
  rw [estimatesList_getD N s hnd i hi]
  rw [estOf, busPQsum_eq_spec]

lemma findIdx_eq_of_first (p : γ → Bool) :
    ∀ (l : List γ) (i : ℕ) (hi : i < l.length), p (l.get ⟨i, hi⟩) = true →
      (∀ j, j < i → ∀ hj : j < l.length, p (l.get ⟨j, hj⟩) = false) →
      l.findIdx p = i
  | a :: t, 0, _, h1, _ => by
    have ha : p a = true := h1
    simp [List.findIdx_cons, ha]
  | a :: t, i + 1, hi, h1, h2 => by
    have ha : p a = false := by
      simpa using h2 0 (Nat.succ_pos i) (by simp)
    have ht : t.findIdx p = i := by
      refine findIdx_eq_of_first p t i (by simpa using Nat.lt_of_succ_lt_succ hi) ?_ ?_
      · simpa using h1
      · intro j hj hjl
        simpa using h2 (j + 1) (Nat.succ_lt_succ hj) (by simpa using Nat.succ_lt_succ hjl)
    simp [List.findIdx_cons, ha, ht]

lemma snapIdx_eq (buses : List (Bus α)) (hnd : (buses.map Bus.number).Nodup)
    (i : ℕ) (hi : i < buses.length) :
    snapIdx buses (busAt buses i).number = i := by
  unfold snapIdx
  refine findIdx_eq_of_first _ buses i hi ?_ ?_
  · simp [busAt_eq_getElem buses i hi]
  · intro j hj hjl
    simp only [decide_eq_false_iff_not]
    rw [busAt_eq_getElem buses i hi]
    intro hnum
    have hj2 : j < (buses.map Bus.number).length := by simpa using hjl
    have hi2 : i < (buses.map Bus.number).length := by simpa using hi
    have hmap : (buses.map Bus.number).get ⟨j, hj2⟩ = (buses.map Bus.number).get ⟨i, hi2⟩ := by
      simp only [List.get_eq_getElem, List.getElem_map]
      simpa using hnum
    have hfin := (List.Nodup.get_inj_iff hnd).mp hmap
    have : j = i := by simpa using congrArg Fin.val hfin
    omega

lemma snapIdx_shape (N : Numerics α) (s : Solver α)
    (hnd : (s.buses.map Bus.number).Nodup) {e : BusEstimate α}
    (he : e ∈ estimatesList N s) :
    snapIdx s.buses (busAt s.buses e.bus).number = e.bus :=
  snapIdx_eq s.buses hnd e.bus (estimatesList_shape N s e he).1

lemma j11entry_eq_spec (N : Numerics α) (s : Solver α)
    (hnd : (s.buses.map Bus.number).Nodup) {src dst : BusEstimate α}
    (hs : src ∈ estimatesList N s) (hd : dst ∈ estimatesList N s) :
    j11entry N s.Y s.buses src dst = specJ11 N s.Y s.buses src dst := by
  unfold j11entry specJ11
  rw [snapIdx_shape N s hnd hs, snapIdx_shape N s hnd hd, ite_not]

lemma j12entry_eq_spec (N : Numerics α) (s : Solver α)
    (hnd : (s.buses.map Bus.number).Nodup) {src dst : BusEstimate α}
    (hs : src ∈ estimatesList N s) (hd : dst ∈ estimatesList N s) :
    j12entry N s.Y s.buses src dst = specJ12 N s.Y s.buses src dst := by
  unfold j12entry specJ12
  rw [snapIdx_shape N s hnd hs, snapIdx_shape N s hnd hd, ite_not]

lemma j21entry_eq_spec (N : Numerics α) (s : Solver α)
    (hnd : (s.buses.map Bus.number).Nodup) {src dst : BusEstimate α}
    (hs : src ∈ estimatesList N s) (hd : dst ∈ estimatesList N s) :
    j21entry N s.Y s.buses src dst = specJ21 N s.Y s.buses src dst := by
  unfold j21entry specJ21
  rw [snapIdx_shape N s hnd hs, snapIdx_shape N s hnd hd, ite_not]

lemma j22entry_eq_spec (N : Numerics α) (s : Solver α)
    (hnd : (s.buses.map Bus.number).Nodup) {src dst : BusEstimate α}
    (hs : src ∈ estimatesList N s) (hd : dst ∈ estimatesList N s) :
    j22entry N s.Y s.buses src dst = specJ22 N s.Y s.buses src dst := by
  unfold j22entry specJ22
  rw [snapIdx_shape N s hnd hs, snapIdx_shape N s hnd hd, ite_not]

lemma pvPq_getD_mem (N : Numerics α) (s : Solver α) (k : ℕ) (hk : k < npv N s) :
    (pvPqEstimates N s).getD k defaultEstimate ∈ estimatesList N s := by
  have hk2 : k < (pvPqEstimates N s).length := hk
  rw [List.getD_eq_getElem _ _ hk2]
  exact List.mem_of_mem_filter (List.getElem_mem hk2)

lemma pq_getD_mem (N : Numerics α) (s : Solver α) (k : ℕ) (hk : k < npq N s) :
    (pqEstimates N s).getD k defaultEstimate ∈ estimatesList N s := by
  have hk2 : k < (pqEstimates N s).length := hk
  rw [List.getD_eq_getElem _ _ hk2]
  exact List.mem_of_mem_filter (List.getElem_mem hk2)

/-- C3: every cell of the Jacobian assembled by step matches the spec
block matrix [[J11, J12], [J21, J22]] over the ordered non-swing and
load subsets, with the diagonal case selected by bus identity and the
admittance matrix looked up by snapshot position. -/
theorem jacobian_matches_spec (N : Numerics α) (s : Solver α)
    (hnd : (s.buses.map Bus.number).Nodup) (r c : ℕ)
    (hr : r < dim N s) (hc : c < dim N s) :
    jacobian N s ⟨r, hr⟩ ⟨c, hc⟩ = specJacEntry N s r c := by
  show jacEntry N s r c = specJacEntry N s r c
  unfold jacEntry specJacEntry
  have hcd : c < npv N s + npq N s := hc
  by_cases h1 : r < npv N s
  · by_cases h2 : c < npv N s
    · rw [if_pos h1, if_pos h2, if_pos h1, if_pos h2,
        j11entry_eq_spec N s hnd (pvPq_getD_mem N s r h1) (pvPq_getD_mem N s c h2)]
    · have h3 : c - npv N s < npq N s := by omega
      rw [if_pos h1, if_neg h2, if_pos h1, if_neg h2,
        j12entry_eq_spec N s hnd (pvPq_getD_mem N s r h1) (pq_getD_mem N s _ h3)]
  · have hrd : r < npv N s + npq N s := hr
    have h3 : r - npv N s < npq N s := by omega
    by_cases h2 : c < npv N s
    · rw [if_neg h1, if_pos h2, if_neg h1, if_pos h2,
        j21entry_eq_spec N s hnd (pq_getD_mem N s _ h3) (pvPq_getD_mem N s c h2)]
    · have h4 : c - npv N s < npq N s := by omega
      rw [if_neg h1, if_neg h2, if_neg h1, if_neg h2,
        j22entry_eq_spec N s hnd (pq_getD_mem N s _ h3) (pq_getD_mem N s _ h4)]

lemma foldl_max_le_iff :
    ∀ (t : List α) (a x : α), t.foldl max a ≤ x ↔ a ≤ x ∧ ∀ b ∈ t, b ≤ x
  | [], a, x => by simp
  | b :: t, a, x => by
    rw [List.foldl_cons, foldl_max_le_iff t (max a b) x]
    simp [max_le_iff, and_assoc]

/-- C6: has_converged returns true exactly when every active power
mismatch of the non-swing subset is within the active threshold and
every reactive power mismatch of the load subset is within the
reactive threshold, evaluated on the current estimates; it is a pure
function of the current state, so it can be true at construction,
before any step. -/
theorem hasConverged_iff_max_mismatch (N : Numerics α) (s : Solver α)
    (h1 : pvPqEstimates N s ≠ []) (h2 : pqEstimates N s ≠ []) :
    hasConverged N s = some true ↔
      ((∀ e ∈ pvPqEstimates N s, |e.active_power_error| ≤ s.max_active_power_error) ∧
       (∀ e ∈ pqEstimates N s, |e.reactive_power_error| ≤ s.max_reactive_power_error)) := by
  obtain ⟨a, ta, hpv⟩ := List.exists_cons_of_ne_nil h1
  obtain ⟨b, tb, hpq⟩ := List.exists_cons_of_ne_nil h2
  rw [hasConverged, hpv, hpq]
  show some _ = some true ↔ _
  rw [Option.some_inj]
  simp only [Bool.and_eq_true, decide_eq_true_eq, foldl_max_le_iff, List.forall_mem_cons,
    List.forall_mem_map]

/-- C10: when the load subset is empty, or the non-swing subset is
empty, has_converged raises (numpy.max of an empty sequence) instead
of returning a boolean, even though solver construction succeeded. -/
theorem hasConverged_error_on_empty_subset (N : Numerics α) (s : Solver α)
    (h : pvPqEstimates N s = [] ∨ pqEstimates N s = []) :
    hasConverged N s = none := by
  rcases h with h | h
  · rw [hasConverged, h]
    rfl
  · rw [hasConverged, h]
    cases hmp : ((pvPqEstimates N s).map (fun e => |e.active_power_error|)).max? <;> rfl

lemma minv_mul_cancel {n : ℕ} (A Jinv : Matrix (Fin n) (Fin n) α)
    (h : minv A = some Jinv) : A * Jinv = 1 := by
  unfold minv at h
  by_cases hd : A.det = 0
  · rw [if_pos hd] at h
    exact absurd h (by simp)
  · rw [if_neg hd] at h
    have hJ : Jinv = A.det⁻¹ • A.adjugate := (Option.some_inj.mp h).symm
    rw [hJ, Matrix.mul_smul, Matrix.mul_adjugate, smul_smul, inv_mul_cancel₀ hd, one_smul]

lemma minv_det_ne_zero {n : ℕ} (A Jinv : Matrix (Fin n) (Fin n) α)
    (h : minv A = some Jinv) : A.det ≠ 0 := by
  unfold minv at h
  by_cases hd : A.det = 0
  · rw [if_pos hd] at h
    exact absurd h (by simp)
  · exact hd

lemma minv_eq_of_mul {n : ℕ} (A B : Matrix (Fin n) (Fin n) α)
    (hAB : A * B = 1) (hBA : B * A = 1) : minv A = some B := by
  have hd : A.det ≠ 0 := by
    intro h0
    have : A.det * B.det = 1 := by rw [← Matrix.det_mul, hAB, Matrix.det_one]
    rw [h0, zero_mul] at this
    exact zero_ne_one this
  have hC : A * (A.det⁻¹ • A.adjugate) = 1 := by
    rw [Matrix.mul_smul, Matrix.mul_adjugate, smul_smul, inv_mul_cancel₀ hd, one_smul]
  have hBC : B = A.det⁻¹ • A.adjugate := by
    calc B = B * (A * (A.det⁻¹ • A.adjugate)) := by rw [hC, mul_one]
    _ = (B * A) * (A.det⁻¹ • A.adjugate) := by rw [mul_assoc]
    _ = A.det⁻¹ • A.adjugate := by rw [hBA, one_mul]
  rw [minv, if_neg hd, hBC]

lemma corrections_sound (N : Numerics α) (s : Solver α) (xs : List α)
    (h : corrections N s = some xs) :
    xs.length = dim N s ∧
      (jacobian N s).mulVec (vecOf (dim N s) xs) = errVec N s := by
  unfold corrections at h
  obtain ⟨Jinv, hJinv, hxs⟩ := Option.map_eq_some'.mp h
  constructor
  · rw [← hxs]
    simp
  · have hv : vecOf (dim N s) xs = Jinv.mulVec (errVec N s) := by
      funext i
      rw [← hxs]
      show (List.ofFn (Jinv.mulVec (errVec N s))).getD i.val 0 = _
      have hi : i.val < (List.ofFn (Jinv.mulVec (errVec N s))).length := by
        simp [i.isLt]
      rw [List.getD_eq_getElem _ _ hi, List.getElem_ofFn]
    rw [hv, Matrix.mulVec_mulVec, minv_mul_cancel _ _ hJinv, Matrix.one_mulVec]

/-- C8: step fails with the linear algebra error exactly when the
Jacobian is singular; the error propagates as the result of step with
no retry and no substitute value, and no state update happens on that
path (the bus updates live only in the successful branch). -/
theorem step_error_iff_singular (N : Numerics α) (s : Solver α) :
    step N s = none ↔ (jacobian N s).det = 0 := by
  unfold step corrections minv
  by_cases hd : (jacobian N s).det = 0 <;> simp [hd]

/-- C2 amended: the correction vector x computed by step satisfies
Jacobian times x equals the stacked mismatch vector itself, not its
negation. -/
theorem corrections_solve_linear_system (N : Numerics α) (s : Solver α) (xs : List α)
    (h : corrections N s = some xs) :
    (jacobian N s).mulVec (vecOf (dim N s) xs) = errVec N s :=
  (corrections_sound N s xs h).2

/-- C5: a successful step computes a correction vector x with Jacobian
times x equal to the stacked mismatch vector (active power errors of
the non-swing subset followed by reactive power errors of the load
subset, in the Jacobian row order), and applies it split as the first
non-swing-many entries for angles and the rest for magnitudes, in the
same subset orders. -/
theorem step_solves_and_splits (N : Numerics α) (s s2 : Solver α)
    (h : step N s = some s2) :
    ∃ xs, corrections N s = some xs ∧
      xs.length = npv N s + npq N s ∧
      (jacobian N s).mulVec (vecOf (dim N s) xs) = errVec N s ∧
      s2.buses = applyMagnitudePass N
        (applyAnglePass N s.buses ((xs.take (npv N s)).zip (pvPqEstimates N s)))
        ((xs.drop (npv N s)).zip (pqEstimates N s)) := by
  unfold step at h
  obtain ⟨xs, hxs, hs2⟩ := Option.map_eq_some'.mp h
  refine ⟨xs, hxs, (corrections_sound N s xs hxs).1, (corrections_sound N s xs hxs).2, ?_⟩
  rw [← hs2]
  rfl

lemma modifyIdx_length (f : Bus α → Bus α) :
    ∀ (i : ℕ) (l : List (Bus α)), (modifyIdx f i l).length = l.length
  | i, [] => by cases i <;> rfl
  | 0, _ :: _ => rfl
  | i + 1, _ :: t => by simp [modifyIdx, modifyIdx_length f i t]

lemma modifyIdx_ge (f : Bus α → Bus α) :
    ∀ (i : ℕ) (l : List (Bus α)), l.length ≤ i → modifyIdx f i l = l
  | i, [], _ => by cases i <;> rfl
  | 0, b :: t, h => by simp at h
  | i + 1, b :: t, h => by
    simp [modifyIdx, modifyIdx_ge f i t (by simpa using Nat.le_of_succ_le_succ h)]

lemma busAt_modifyIdx_ne (f : Bus α → Bus α) :
    ∀ (i j : ℕ) (l : List (Bus α)), j ≠ i → busAt (modifyIdx f i l) j = busAt l j
  | _, _, [], _ => by simp [modifyIdx]
  | 0, 0, _ :: _, h => absurd rfl h
  | 0, _ + 1, _ :: _, _ => by simp [modifyIdx, busAt]
  | _ + 1, 0, _ :: _, _ => by simp [modifyIdx, busAt]
  | i + 1, j + 1, b :: t, h => by
    have hrec := busAt_modifyIdx_ne f i j t (by omega)
    simpa [modifyIdx, busAt] using hrec

lemma busAt_modifyIdx_self (f : Bus α → Bus α) :
    ∀ (i : ℕ) (l : List (Bus α)), i < l.length →
      busAt (modifyIdx f i l) i = f (busAt l i)
  | _, [], h => by simp at h
  | 0, b :: t, _ => by simp [modifyIdx, busAt]
  | i + 1, b :: t, h => by
    have hrec := busAt_modifyIdx_self f i t (by simpa using Nat.lt_of_succ_lt_succ h)
    simpa [modifyIdx, busAt] using hrec

lemma modifyIdx_eq_self (f : Bus α → Bus α) :
    ∀ (i : ℕ) (l : List (Bus α)), f (busAt l i) = busAt l i → modifyIdx f i l = l
  | i, [], _ => by cases i <;> rfl
  | 0, b :: t, h => by
    have hb : f b = b := by simpa [busAt] using h
    simp [modifyIdx, hb]
  | i + 1, b :: t, h => by
    have hrec := modifyIdx_eq_self f i t (by simpa [busAt] using h)
    simp [modifyIdx, hrec]

lemma applyAnglePass_cons (N : Numerics α) (bs : List (Bus α))
    (ce : α × BusEstimate α) (pairs : List (α × BusEstimate α)) :
    applyAnglePass N bs (ce :: pairs) = applyAnglePass N (angleStep N bs ce) pairs := rfl

lemma applyMagnitudePass_cons (N : Numerics α) (bs : List (Bus α))
    (ce : α × BusEstimate α) (pairs : List (α × BusEstimate α)) :
    applyMagnitudePass N bs (ce :: pairs) = applyMagnitudePass N (magStep N bs ce) pairs := rfl

lemma angleStep_length (N : Numerics α) (bs : List (Bus α)) (ce : α × BusEstimate α) :
    (angleStep N bs ce).length = bs.length := modifyIdx_length _ _ _

lemma magStep_length (N : Numerics α) (bs : List (Bus α)) (ce : α × BusEstimate α) :
    (magStep N bs ce).length = bs.length := modifyIdx_length _ _ _

lemma applyAnglePass_length (N : Numerics α) :
    ∀ (pairs : List (α × BusEstimate α)) (bs : List (Bus α)),
      (applyAnglePass N bs pairs).length = bs.length
  | [], _ => rfl
  | ce :: t, bs => by
    rw [applyAnglePass_cons, applyAnglePass_length N t _, angleStep_length]

lemma applyMagnitudePass_length (N : Numerics α) :
    ∀ (pairs : List (α × BusEstimate α)) (bs : List (Bus α)),
      (applyMagnitudePass N bs pairs).length = bs.length
  | [], _ => rfl
  | ce :: t, bs => by
    rw [applyMagnitudePass_cons, applyMagnitudePass_length N t _, magStep_length]

lemma applyAnglePass_untouched (N : Numerics α) :
    ∀ (pairs : List (α × BusEstimate α)) (bs : List (Bus α)) (i : ℕ),
      (∀ ce ∈ pairs, ce.2.bus ≠ i) →
      busAt (applyAnglePass N bs pairs) i = busAt bs i
  | [], _, _, _ => rfl
  | ce :: t, bs, i, h => by
    rw [applyAnglePass_cons,
      applyAnglePass_untouched N t _ i (fun x hx => h x (List.mem_cons_of_mem ce hx))]
    exact busAt_modifyIdx_ne _ _ _ _ (Ne.symm (h ce (List.mem_cons_self ce t)))

lemma applyMagnitudePass_untouched (N : Numerics α) :
    ∀ (pairs : List (α × BusEstimate α)) (bs : List (Bus α)) (i : ℕ),
      (∀ ce ∈ pairs, ce.2.bus ≠ i) →
      busAt (applyMagnitudePass N bs pairs) i = busAt bs i
  | [], _, _, _ => rfl
  | ce :: t, bs, i, h => by
    rw [applyMagnitudePass_cons,
      applyMagnitudePass_untouched N t _ i (fun x hx => h x (List.mem_cons_of_mem ce hx))]
    exact busAt_modifyIdx_ne _ _ _ _ (Ne.symm (h ce (List.mem_cons_self ce t)))

lemma applyAnglePass_zero (N : Numerics α) :
    ∀ (pairs : List (α × BusEstimate α)) (bs : List (Bus α)),
      (∀ ce ∈ pairs, ce.1 = 0) →
      (∀ b ∈ bs, recompose N (N.cabs b.voltage) (N.cangle b.voltage) = b.voltage) →
      applyAnglePass N bs pairs = bs
  | [], _, _, _ => rfl
  | ce :: t, bs, hz, hp => by
    have hstep : angleStep N bs ce = bs := by
      by_cases hlen : ce.2.bus < bs.length
      · apply modifyIdx_eq_self
        have hmem : busAt bs ce.2.bus ∈ bs := by
          rw [busAt_eq_getElem _ _ hlen]
          exact List.getElem_mem hlen
        have hc : ce.1 = 0 := hz ce (List.mem_cons_self ce t)
        show { busAt bs ce.2.bus with
          voltage := recompose N (N.cabs (busAt bs ce.2.bus).voltage)
            (N.cangle (busAt bs ce.2.bus).voltage + ce.1) } = busAt bs ce.2.bus
        rw [hc, add_zero, hp _ hmem]
      · exact modifyIdx_ge _ _ _ (by omega)
    rw [applyAnglePass_cons, hstep,
      applyAnglePass_zero N t bs (fun x hx => hz x (List.mem_cons_of_mem ce hx)) hp]

lemma applyMagnitudePass_zero (N : Numerics α) :
    ∀ (pairs : List (α × BusEstimate α)) (bs : List (Bus α)),
      (∀ ce ∈ pairs, ce.1 = 0) →
      (∀ b ∈ bs, recompose N (N.cabs b.voltage) (N.cangle b.voltage) = b.voltage) →
      applyMagnitudePass N bs pairs = bs
  | [], _, _, _ => rfl
  | ce :: t, bs, hz, hp => by
    have hstep : magStep N bs ce = bs := by
      by_cases hlen : ce.2.bus < bs.length
      · apply modifyIdx_eq_self
        have hmem : busAt bs ce.2.bus ∈ bs := by
          rw [busAt_eq_getElem _ _ hlen]
          exact List.getElem_mem hlen
        have hc : ce.1 = 0 := hz ce (List.mem_cons_self ce t)
        show { busAt bs ce.2.bus with
          voltage := recompose N (N.cabs (busAt bs ce.2.bus).voltage + ce.1)
            (N.cangle (busAt bs ce.2.bus).voltage) } = busAt bs ce.2.bus
        rw [hc, add_zero, hp _ hmem]
      · exact modifyIdx_ge _ _ _ (by omega)
    rw [applyMagnitudePass_cons, hstep,
      applyMagnitudePass_zero N t bs (fun x hx => hz x (List.mem_cons_of_mem ce hx)) hp]

/-- C9: applying an all-zero correction vector leaves every bus voltage
unchanged, for every bus list on which the polar recomposition is
faithful (recomposing the unchanged magnitude and angle reproduces the
voltage). -/
theorem zero_corrections_identity (N : Numerics α) (buses : List (Bus α))
    (pv pq : List (BusEstimate α))
    (hpolar : ∀ b ∈ buses, recompose N (N.cabs b.voltage) (N.cangle b.voltage) = b.voltage) :
    applyCorrections N buses pv pq (List.replicate (pv.length + pq.length) 0) = buses := by
  unfold applyCorrections
  have htake : (List.replicate (pv.length + pq.length) (0 : α)).take pv.length =
      List.replicate pv.length 0 := by
    rw [List.take_replicate]
    congr 1
    omega
  have hdrop : (List.replicate (pv.length + pq.length) (0 : α)).drop pv.length =
      List.replicate pq.length 0 := by
    rw [List.drop_replicate]
    congr 1
    omega
  rw [htake, hdrop]
  have hz1 : ∀ ce ∈ (List.replicate pv.length (0 : α)).zip pv, ce.1 = 0 := by
    intro ce hce
    exact List.eq_of_mem_replicate (List.of_mem_zip hce).1
  have hz2 : ∀ ce ∈ (List.replicate pq.length (0 : α)).zip pq, ce.1 = 0 := by
    intro ce hce
    exact List.eq_of_mem_replicate (List.of_mem_zip hce).1
  rw [applyAnglePass_zero N _ buses hz1 hpolar, applyMagnitudePass_zero N _ buses hz2 hpolar]

lemma applyAnglePass_touched (N : Numerics α) (bs : List (Bus α))
    (pairs : List (α × BusEstimate α)) (c : α) (e : BusEstimate α)
    (hnd : (pairs.map (fun ce => ce.2.bus)).Nodup)
    (hmem : (c, e) ∈ pairs) (hi : e.bus < bs.length) :
    busAt (applyAnglePass N bs pairs) e.bus = angleUpdated N (busAt bs e.bus) c := by
  obtain ⟨l1, l2, rfl⟩ := List.append_of_mem hmem
  have hmap : (l1.map (fun ce => ce.2.bus) ++
      e.bus :: l2.map (fun ce => ce.2.bus)).Nodup := by
    simpa using hnd
  have h1 : ∀ ce ∈ l1, ce.2.bus ≠ e.bus := by
    intro ce hce heq
    have hd := List.disjoint_of_nodup_append hmap
    exact hd (List.mem_map_of_mem _ hce) (by simp [heq])
  have h2 : ∀ ce ∈ l2, ce.2.bus ≠ e.bus := by
    intro ce hce heq
    have hcons : (e.bus :: l2.map (fun ce => ce.2.bus)).Nodup :=
      ((List.nodup_append.mp hmap).2).1
    exact (List.nodup_cons.mp hcons).1 (heq ▸ List.mem_map_of_mem _ hce)
  have happ : applyAnglePass N bs (l1 ++ (c, e) :: l2) =
      applyAnglePass N (angleStep N (applyAnglePass N bs l1) (c, e)) l2 := by
    unfold applyAnglePass
    rw [List.foldl_append, List.foldl_cons]
  rw [happ, applyAnglePass_untouched N l2 _ e.bus h2]
  have hlen1 : e.bus < (applyAnglePass N bs l1).length := by
    rw [applyAnglePass_length]
    exact hi
  have hbs1 : busAt (applyAnglePass N bs l1) e.bus = busAt bs e.bus :=
    applyAnglePass_untouched N l1 bs e.bus h1
  have hself : busAt (angleStep N (applyAnglePass N bs l1) (c, e)) e.bus =
      angleUpdated N (busAt (applyAnglePass N bs l1) e.bus) c := by
    unfold angleStep
    exact busAt_modifyIdx_self _ _ _ hlen1
  rw [hself, hbs1]

lemma applyMagnitudePass_touched (N : Numerics α) (bs : List (Bus α))
    (pairs : List (α × BusEstimate α)) (c : α) (e : BusEstimate α)
    (hnd : (pairs.map (fun ce => ce.2.bus)).Nodup)
    (hmem : (c, e) ∈ pairs) (hi : e.bus < bs.length) :
    busAt (applyMagnitudePass N bs pairs) e.bus = magUpdated N (busAt bs e.bus) c := by
  obtain ⟨l1, l2, rfl⟩ := List.append_of_mem hmem
  have hmap : (l1.map (fun ce => ce.2.bus) ++
      e.bus :: l2.map (fun ce => ce.2.bus)).Nodup := by
    simpa using hnd
  have h1 : ∀ ce ∈ l1, ce.2.bus ≠ e.bus := by
    intro ce hce heq
    have hd := List.disjoint_of_nodup_append hmap
    exact hd (List.mem_map_of_mem _ hce) (by simp [heq])
  have h2 : ∀ ce ∈ l2, ce.2.bus ≠ e.bus := by
    intro ce hce heq
    have hcons : (e.bus :: l2.map (fun ce => ce.2.bus)).Nodup :=
      ((List.nodup_append.mp hmap).2).1
    exact (List.nodup_cons.mp hcons).1 (heq ▸ List.mem_map_of_mem _ hce)
  have happ : applyMagnitudePass N bs (l1 ++ (c, e) :: l2) =
      applyMagnitudePass N (magStep N (applyMagnitudePass N bs l1) (c, e)) l2 := by
    unfold applyMagnitudePass
    rw [List.foldl_append, List.foldl_cons]
  rw [happ, applyMagnitudePass_untouched N l2 _ e.bus h2]
  have hlen1 : e.bus < (applyMagnitudePass N bs l1).length := by
    rw [applyMagnitudePass_length]
    exact hi
  have hbs1 : busAt (applyMagnitudePass N bs l1) e.bus = busAt bs e.bus :=
    applyMagnitudePass_untouched N l1 bs e.bus h1
  have hself : busAt (magStep N (applyMagnitudePass N bs l1) (c, e)) e.bus =
      magUpdated N (busAt (applyMagnitudePass N bs l1) e.bus) c := by
    unfold magStep
    exact busAt_modifyIdx_self _ _ _ hlen1
  rw [hself, hbs1]

lemma mem_pq_mem_pvPq (N : Numerics α) (s : Solver α) {e : BusEstimate α}
    (h : e ∈ pqEstimates N s) : e ∈ pvPqEstimates N s := by
  rw [pqEstimates, List.mem_filter] at h
  rw [pvPqEstimates, List.mem_filter]
  refine ⟨h.1, ?_⟩
  have hpq : e.bus_type = BusType.PQ := by simpa using h.2
  simp [hpq]

lemma estimatesList_bus_inj (N : Numerics α) (s : Solver α) {e1 e2 : BusEstimate α}
    (h1 : e1 ∈ estimatesList N s) (h2 : e2 ∈ estimatesList N s) (hb : e1.bus = e2.bus) :
    e1 = e2 := by
  have hs1 := (estimatesList_shape N s e1 h1).2
  have hs2 := (estimatesList_shape N s e2 h2).2
  rw [hs1, hs2, hb]

lemma estimatesList_map_bus (N : Numerics α) (s : Solver α)
    (hnd : (s.buses.map Bus.number).Nodup) :
    (estimatesList N s).map (fun e => e.bus) = List.range s.buses.length := by
  rw [estimatesList_eq_map N s hnd, List.map_map]
  have hc : ((fun e : BusEstimate α => e.bus) ∘
      fun x : ℕ × Bus α => estOf N s.Y s.buses s.swing_bus_number x.1 x.2) =
      (Prod.fst : ℕ × Bus α → ℕ) := rfl
  rw [hc, List.enum_map_fst]

lemma pvPq_map_bus_nodup (N : Numerics α) (s : Solver α)
    (hnd : (s.buses.map Bus.number).Nodup) :
    ((pvPqEstimates N s).map (fun e => e.bus)).Nodup := by
  have hsub : List.Sublist (pvPqEstimates N s) (estimatesList N s) := List.filter_sublist _
  exact List.Nodup.sublist (hsub.map _)
    (by rw [estimatesList_map_bus N s hnd]; exact List.nodup_range _)

lemma pq_map_bus_nodup (N : Numerics α) (s : Solver α)
    (hnd : (s.buses.map Bus.number).Nodup) :
    ((pqEstimates N s).map (fun e => e.bus)).Nodup := by
  have hsub : List.Sublist (pqEstimates N s) (estimatesList N s) := List.filter_sublist _
  exact List.Nodup.sublist (hsub.map _)
    (by rw [estimatesList_map_bus N s hnd]; exact List.nodup_range _)

lemma busType_ne_swing {swing : ℤ} {b : Bus α}
    (h : busType swing b ≠ BusType.SWING) : b.number ≠ swing := by
  intro hh
  exact h (by simp [busType, hh])

lemma pvPq_bus_lt (N : Numerics α) (s : Solver α) {e : BusEstimate α}
    (he : e ∈ pvPqEstimates N s) : e.bus < s.buses.length :=
  (estimatesList_shape N s e (List.mem_of_mem_filter he)).1

lemma pvPq_number_ne_swing (N : Numerics α) (s : Solver α) {e : BusEstimate α}
    (he : e ∈ pvPqEstimates N s) :
    (busAt s.buses e.bus).number ≠ s.swing_bus_number := by
  have hmem := List.mem_of_mem_filter he
  have hshape := (estimatesList_shape N s e hmem).2
  have htype : e.bus_type ≠ BusType.SWING := by
    have h2 := (List.mem_filter.mp he).2
    simpa using h2
  have hbt : e.bus_type = busType s.swing_bus_number (busAt s.buses e.bus) := by
    conv_lhs => rw [hshape]
    rfl
  exact busType_ne_swing (hbt ▸ htype)

lemma step_some_parts (N : Numerics α) (s s2 : Solver α) (h : step N s = some s2) :
    ∃ xs, corrections N s = some xs ∧
      s2.buses = applyCorrections N s.buses (pvPqEstimates N s) (pqEstimates N s) xs ∧
      s2.swing_bus_number = s.swing_bus_number ∧
      s2.buses.length = s.buses.length := by
  unfold step at h
  obtain ⟨xs, hxs, hs2⟩ := Option.map_eq_some'.mp h
  refine ⟨xs, hxs, by rw [← hs2], by rw [← hs2], ?_⟩
  rw [← hs2]
  show (applyCorrections N s.buses (pvPqEstimates N s) (pqEstimates N s) xs).length =
    s.buses.length
  unfold applyCorrections
  rw [applyMagnitudePass_length, applyAnglePass_length]

lemma applyCorrections_untouched (N : Numerics α) (s : Solver α) (xs : List α) (i : ℕ)
    (h : ∀ e ∈ pvPqEstimates N s, e.bus ≠ i) :
    busAt (applyCorrections N s.buses (pvPqEstimates N s) (pqEstimates N s) xs) i =
      busAt s.buses i := by
  have h1 : ∀ ce ∈ (xs.take (pvPqEstimates N s).length).zip (pvPqEstimates N s),
      ce.2.bus ≠ i := fun ce hce => h ce.2 (List.of_mem_zip hce).2
  have h2 : ∀ ce ∈ (xs.drop (pvPqEstimates N s).length).zip (pqEstimates N s),
      ce.2.bus ≠ i :=
    fun ce hce => h ce.2 (mem_pq_mem_pvPq N s (List.of_mem_zip hce).2)
  unfold applyCorrections
  rw [applyMagnitudePass_untouched N _ _ i h2, applyAnglePass_untouched N _ _ i h1]

lemma step_swing_untouched (N : Numerics α) (s s2 : Solver α) (h : step N s = some s2)
    (i : ℕ) (hi : i < s.buses.length)
    (hsw : (busAt s.buses i).number = s.swing_bus_number) :
    busAt s2.buses i = busAt s.buses i := by
  obtain ⟨xs, _, hb, _, _⟩ := step_some_parts N s s2 h
  rw [hb]
  apply applyCorrections_untouched
  intro e he heq
  exact pvPq_number_ne_swing N s he (by rw [heq, hsw])

lemma stepIter_swing_untouched (N : Numerics α) :
    ∀ (n : ℕ) (s s2 : Solver α), stepIter N n s = some s2 →
      ∀ i, i < s.buses.length → (busAt s.buses i).number = s.swing_bus_number →
        busAt s2.buses i = busAt s.buses i
  | 0, s, s2, h => by
    intro i _ _
    have hs : s = s2 := Option.some_inj.mp h
    rw [← hs]
  | n + 1, s, s2, h => by
    intro i hi hsw
    rw [stepIter] at h
    obtain ⟨s1, hs1, hrec⟩ := Option.bind_eq_some.mp h
    obtain ⟨xs, _, _, hswing1, hlen1⟩ := step_some_parts N s s1 hs1
    have h1 := step_swing_untouched N s s1 hs1 i hi hsw
    have h2 := stepIter_swing_untouched N n s1 s2 hrec i (by omega)
      (by rw [h1, hswing1]; exact hsw)
    rw [h2, h1]

lemma zip_take_mem (xs : List α) (pv : List (BusEstimate α)) (r : ℕ)
    (hr : r < pv.length) (hlen : pv.length ≤ xs.length) :
    (xs.getD r 0, pv.getD r defaultEstimate) ∈ (xs.take pv.length).zip pv := by
  have ht : r < (xs.take pv.length).length := by
    simp only [List.length_take]
    omega
  have hz : r < ((xs.take pv.length).zip pv).length := by
    simp only [List.length_zip, List.length_take]
    omega
  have hx : ((xs.take pv.length).zip pv)[r] = ((xs.take pv.length)[r], pv[r]) :=
    List.getElem_zip
  have hxr : (xs.take pv.length)[r] = xs.getD r 0 := by
    rw [List.getElem_take]
    exact (List.getD_eq_getElem xs 0 (by omega)).symm
  have hpr : pv[r] = pv.getD r defaultEstimate := (List.getD_eq_getElem pv _ hr).symm
  have hmem := List.getElem_mem hz
  rw [hx, hxr, hpr] at hmem
  exact hmem

lemma zip_drop_mem (xs : List α) (pq : List (BusEstimate α)) (n t : ℕ)
    (ht : t < pq.length) (hlen : n + pq.length ≤ xs.length) :
    (xs.getD (n + t) 0, pq.getD t defaultEstimate) ∈ (xs.drop n).zip pq := by
  have hd : t < (xs.drop n).length := by
    simp only [List.length_drop]
    omega
  have hz : t < ((xs.drop n).zip pq).length := by
    simp only [List.length_zip, List.length_drop]
    omega
  have hx : ((xs.drop n).zip pq)[t] = ((xs.drop n)[t], pq[t]) := List.getElem_zip
  have hxr : (xs.drop n)[t] = xs.getD (n + t) 0 := by
    rw [List.getElem_drop]
    exact (List.getD_eq_getElem xs 0 (by omega)).symm
  have hpr : pq[t] = pq.getD t defaultEstimate := (List.getD_eq_getElem pq _ ht).symm
  have hmem := List.getElem_mem hz
  rw [hx, hxr, hpr] at hmem
  exact hmem

lemma zip_take_map_bus (xs : List α) (pv : List (BusEstimate α))
    (hlen : pv.length ≤ xs.length) :
    ((xs.take pv.length).zip pv).map (fun ce => ce.2.bus) =
      pv.map (fun e => e.bus) := by
  have hsnd : ((xs.take pv.length).zip pv).map Prod.snd = pv :=
    List.map_snd_zip _ _ (by simp only [List.length_take]; omega)
  have hc : (fun ce : α × BusEstimate α => ce.2.bus) =
      ((fun e : BusEstimate α => e.bus) ∘ Prod.snd) := rfl
  rw [hc, ← List.map_map, hsnd]

lemma zip_drop_map_bus (xs : List α) (pq : List (BusEstimate α)) (n : ℕ)
    (hlen : n + pq.length ≤ xs.length) :
    ((xs.drop n).zip pq).map (fun ce => ce.2.bus) = pq.map (fun e => e.bus) := by
  have hsnd : ((xs.drop n).zip pq).map Prod.snd = pq :=
    List.map_snd_zip _ _ (by simp only [List.length_drop]; omega)
  have hc : (fun ce : α × BusEstimate α => ce.2.bus) =
      ((fun e : BusEstimate α => e.bus) ∘ Prod.snd) := rfl
  rw [hc, ← List.map_map, hsnd]

/-- C7: each step changes bus voltages only through the state update.
Over any number of steps the swing bus is never modified; in one step,
a bus referenced by no non-swing estimate is unchanged, a bus of the
non-swing subset that is not load-type receives exactly its angle
correction (magnitude kept, voltage recomposed in polar form), and a
load-type bus receives its angle correction followed by its magnitude
correction (angle kept in the second update). -/
theorem step_applies_polar_updates (N : Numerics α) (s : Solver α)
    (hnd : (s.buses.map Bus.number).Nodup) :
    (∀ n s2, stepIter N n s = some s2 →
      ∀ i, i < s.buses.length → (busAt s.buses i).number = s.swing_bus_number →
        busAt s2.buses i = busAt s.buses i) ∧
    (∀ s2 xs, step N s = some s2 → corrections N s = some xs →
      s2.buses.length = s.buses.length ∧
      (∀ i, i < s.buses.length → (∀ e ∈ pvPqEstimates N s, e.bus ≠ i) →
        busAt s2.buses i = busAt s.buses i) ∧
      (∀ r, r < npv N s →
        ((pvPqEstimates N s).getD r defaultEstimate).bus_type ≠ BusType.PQ →
        busAt s2.buses ((pvPqEstimates N s).getD r defaultEstimate).bus =
          angleUpdated N
            (busAt s.buses ((pvPqEstimates N s).getD r defaultEstimate).bus)
            (xs.getD r 0)) ∧
      (∀ r t, r < npv N s → t < npq N s →
        (pvPqEstimates N s).getD r defaultEstimate =
          (pqEstimates N s).getD t defaultEstimate →
        busAt s2.buses ((pvPqEstimates N s).getD r defaultEstimate).bus =
          magUpdated N
            (angleUpdated N
              (busAt s.buses ((pvPqEstimates N s).getD r defaultEstimate).bus)
              (xs.getD r 0))
            (xs.getD (npv N s + t) 0))) := by
  constructor
  · exact fun n s2 h i hi hsw => stepIter_swing_untouched N n s s2 h i hi hsw
  intro s2 xs hstep hxs
  obtain ⟨xs2, hxs2, hb, _, hlen2⟩ := step_some_parts N s s2 hstep
  have hxx : xs2 = xs := Option.some_inj.mp (hxs2.symm.trans hxs)
  rw [hxx] at hb
  have hxlen : xs.length = dim N s := (corrections_sound N s xs hxs).1
  have hdim : dim N s = npv N s + npq N s := rfl
  have hpvlen : (pvPqEstimates N s).length = npv N s := rfl
  have hpqlen : (pqEstimates N s).length = npq N s := rfl
  have hpvle : (pvPqEstimates N s).length ≤ xs.length := by omega
  have hpqle : (pvPqEstimates N s).length + (pqEstimates N s).length ≤ xs.length := by omega
  refine ⟨hlen2, ?_, ?_, ?_⟩
  · intro i hi hni
    rw [hb]
    exact applyCorrections_untouched N s xs i hni
  · intro r hr htype
    have hr2 : r < (pvPqEstimates N s).length := hr
    have hmem_pv : (pvPqEstimates N s).getD r defaultEstimate ∈ pvPqEstimates N s := by
      rw [List.getD_eq_getElem _ _ hr2]
      exact List.getElem_mem hr2
    have hebus := pvPq_bus_lt N s hmem_pv
    have hpair := zip_take_mem xs (pvPqEstimates N s) r hr2 hpvle
    rw [hb]
    show busAt (applyMagnitudePass N
      (applyAnglePass N s.buses
        ((xs.take (pvPqEstimates N s).length).zip (pvPqEstimates N s)))
      ((xs.drop (pvPqEstimates N s).length).zip (pqEstimates N s)))
      ((pvPqEstimates N s).getD r defaultEstimate).bus = _
    have hmg : ∀ ce ∈ (xs.drop (pvPqEstimates N s).length).zip (pqEstimates N s),
        ce.2.bus ≠ ((pvPqEstimates N s).getD r defaultEstimate).bus := by
      intro ce hce heq
      have hce2 : ce.2 ∈ pqEstimates N s := (List.of_mem_zip hce).2
      have hcee : ce.2 = (pvPqEstimates N s).getD r defaultEstimate :=
        estimatesList_bus_inj N s
          (List.mem_of_mem_filter (mem_pq_mem_pvPq N s hce2))
          (List.mem_of_mem_filter hmem_pv) heq
      have hpqt : ((pvPqEstimates N s).getD r defaultEstimate).bus_type = BusType.PQ := by
        have h3 := (List.mem_filter.mp hce2).2
        rw [hcee] at h3
        simpa using h3
      exact htype hpqt
    rw [applyMagnitudePass_untouched N _ _ _ hmg]
    have hndpairs : (((xs.take (pvPqEstimates N s).length).zip
        (pvPqEstimates N s)).map (fun ce => ce.2.bus)).Nodup := by
      rw [zip_take_map_bus xs (pvPqEstimates N s) hpvle]
      exact pvPq_map_bus_nodup N s hnd
    exact applyAnglePass_touched N s.buses _ (xs.getD r 0) _ hndpairs hpair hebus
  · intro r t hr ht heq
    have hr2 : r < (pvPqEstimates N s).length := hr
    have ht2 : t < (pqEstimates N s).length := ht
    have hmem_pv : (pvPqEstimates N s).getD r defaultEstimate ∈ pvPqEstimates N s := by
      rw [List.getD_eq_getElem _ _ hr2]
      exact List.getElem_mem hr2
    have hebus := pvPq_bus_lt N s hmem_pv
    have hpairA := zip_take_mem xs (pvPqEstimates N s) r hr2 hpvle
    have hpairM := zip_drop_mem xs (pqEstimates N s) (pvPqEstimates N s).length t ht2 hpqle
    rw [hb]
    show busAt (applyMagnitudePass N
      (applyAnglePass N s.buses
        ((xs.take (pvPqEstimates N s).length).zip (pvPqEstimates N s)))
      ((xs.drop (pvPqEstimates N s).length).zip (pqEstimates N s)))
      ((pvPqEstimates N s).getD r defaultEstimate).bus = _
    have hndpairsM : (((xs.drop (pvPqEstimates N s).length).zip
        (pqEstimates N s)).map (fun ce => ce.2.bus)).Nodup := by
      rw [zip_drop_map_bus xs (pqEstimates N s) _ hpqle]
      exact pq_map_bus_nodup N s hnd
    have hndpairsA : (((xs.take (pvPqEstimates N s).length).zip
        (pvPqEstimates N s)).map (fun ce => ce.2.bus)).Nodup := by
      rw [zip_take_map_bus xs (pvPqEstimates N s) hpvle]
      exact pvPq_map_bus_nodup N s hnd
    have hlenA : ((pvPqEstimates N s).getD r defaultEstimate).bus <
        (applyAnglePass N s.buses
          ((xs.take (pvPqEstimates N s).length).zip (pvPqEstimates N s))).length := by
      rw [applyAnglePass_length]
      exact hebus
    have hpairM2 : (xs.getD ((pvPqEstimates N s).length + t) 0,
        (pvPqEstimates N s).getD r defaultEstimate) ∈
        (xs.drop (pvPqEstimates N s).length).zip (pqEstimates N s) := by
      rw [heq]
      exact hpairM
    rw [applyMagnitudePass_touched N _ _ _ _ hndpairsM hpairM2 hlenA,
      applyAnglePass_touched N s.buses _ (xs.getD r 0) _ hndpairsA hpairA hebus]
    rfl

lemma h_est_sC2 : estimatesList Nq sC2 =
    [⟨0, BusType.SWING, 1, 0, -1, 0⟩, ⟨1, BusType.PQ, 1, 0, -2, -1⟩] := by
  norm_num [estimatesList, busPowerEstimates, dictInsert, estOf, busPQsum, busType, Yget, Nq,
    sC2, busAt, List.enum]

lemma h_pv_sC2 : pvPqEstimates Nq sC2 = [⟨1, BusType.PQ, 1, 0, -2, -1⟩] := by
  rw [pvPqEstimates, h_est_sC2]
  rfl

lemma h_pq_sC2 : pqEstimates Nq sC2 = [⟨1, BusType.PQ, 1, 0, -2, -1⟩] := by
  rw [pqEstimates, h_est_sC2]
  rfl

lemma h_err_sC2 : errList Nq sC2 = [-2, -1] := by
  rw [errList, h_pv_sC2, h_pq_sC2]
  rfl

lemma hJ00 : jacEntry Nq sC2 0 0 = 1 := by
  rw [jacEntry, if_pos (show (0:ℕ) < npv Nq sC2 from by decide),
    if_pos (show (0:ℕ) < npv Nq sC2 from by decide), h_pv_sC2]
  norm_num [j11entry, snapIdx, busAt, Yget, Nq, sC2, List.findIdx_cons]

lemma hJ01 : jacEntry Nq sC2 0 1 = 2 := by
  rw [jacEntry, if_pos (show (0:ℕ) < npv Nq sC2 from by decide),
    if_neg (show ¬ ((1:ℕ) < npv Nq sC2) from by decide),
    show npv Nq sC2 = 1 from rfl, h_pv_sC2, h_pq_sC2]
  norm_num [j12entry, snapIdx, busAt, Yget, Nq, sC2, List.findIdx_cons]

lemma hJ10 : jacEntry Nq sC2 1 0 = 0 := by
  rw [jacEntry, if_neg (show ¬ ((1:ℕ) < npv Nq sC2) from by decide),
    if_pos (show (0:ℕ) < npv Nq sC2 from by decide),
    show npv Nq sC2 = 1 from rfl, h_pv_sC2, h_pq_sC2]
  norm_num [j21entry, snapIdx, busAt, Yget, Nq, sC2, List.findIdx_cons]

lemma hJ11 : jacEntry Nq sC2 1 1 = 1 := by
  rw [jacEntry, if_neg (show ¬ ((1:ℕ) < npv Nq sC2) from by decide),
    if_neg (show ¬ ((1:ℕ) < npv Nq sC2) from by decide),
    show npv Nq sC2 = 1 from rfl, h_pq_sC2]
  norm_num [j22entry, snapIdx, busAt, Yget, Nq, sC2, List.findIdx_cons]

lemma hJmat : Jc = JC2 := by
  ext i j
  fin_cases i <;> fin_cases j
  · exact hJ00.trans (by norm_num [JC2])
  · exact hJ01.trans (by norm_num [JC2])
  · exact hJ10.trans (by norm_num [JC2])
  · exact hJ11.trans (by norm_num [JC2])

lemma hmulJC2 : JC2 * JinvC2 = 1 := by
  ext i j
  fin_cases i <;> fin_cases j <;>
    norm_num [JC2, JinvC2, Matrix.mul_apply, Fin.sum_univ_two, Matrix.one_apply]

lemma hmulJC2r : JinvC2 * JC2 = 1 := by
  ext i j
  fin_cases i <;> fin_cases j <;>
    norm_num [JC2, JinvC2, Matrix.mul_apply, Fin.sum_univ_two, Matrix.one_apply]

lemma hJBleft : Jc * JinvC2 = 1 := by
  rw [hJmat]
  exact hmulJC2

lemma hJBright : JinvC2 * Jc = 1 := by
  rw [hJmat]
  exact hmulJC2r

lemma hminv_sC2 : minv (jacobian Nq sC2) = some JinvC2 := by
  have h := minv_eq_of_mul Jc JinvC2 hJBleft hJBright
  exact h

lemma corrections_sC2 : corrections Nq sC2 = some [0, -1] := by
  unfold corrections
  rw [hminv_sC2]
  show some (List.ofFn (fun i : Fin 2 =>
    (JinvC2.mulVec (vecOf 2 (errList Nq sC2))) i)) = some [0, -1]
  rw [h_err_sC2]
  norm_num [List.ofFn_succ, Matrix.mulVec, Matrix.dotProduct, Fin.sum_univ_two, JinvC2, vecOf]

lemma step_sC2 : step Nq sC2 = some sC2next := by
  unfold step
  rw [corrections_sC2]
  show some _ = some sC2next
  rw [Option.some_inj]
  show ({ sC2 with buses := (applyCorrections Nq sC2.buses (pvPqEstimates Nq sC2)
    (pqEstimates Nq sC2) [0, -1]) } : Solver ℚ) = sC2next
  rw [h_pv_sC2, h_pq_sC2]
  norm_num [applyCorrections, applyAnglePass, applyMagnitudePass, angleStep, magStep,
    modifyIdx, recompose, busAt, Nq, sC2, sC2next]

lemma h_est_sC1 : estimatesList Nq sC1 =
    [⟨0, BusType.SWING, 0, 0, 0, 0⟩, ⟨1, BusType.UNKNOWN, 5, 0, -5, 0⟩,
     ⟨2, BusType.PQ, -1, -1, 0, 0⟩] := by
  norm_num [estimatesList, busPowerEstimates, dictInsert, estOf, busPQsum, busType, Yget, Nq,
    sC1, busAt, List.enum]

lemma h_pv_sC1 : pvPqEstimates Nq sC1 =
    [⟨1, BusType.UNKNOWN, 5, 0, -5, 0⟩, ⟨2, BusType.PQ, -1, -1, 0, 0⟩] := by
  rw [pvPqEstimates, h_est_sC1]
  rfl

lemma h_pq_sC1 : pqEstimates Nq sC1 = [⟨2, BusType.PQ, -1, -1, 0, 0⟩] := by
  rw [pqEstimates, h_est_sC1]
  rfl

lemma h_conv_sC1 : hasConverged Nq sC1 = some false := by
  rw [hasConverged, h_pv_sC1, h_pq_sC1]
  rfl

/-- C1 counterexample to the claim as stated: in the snapshot sC1 the
unclassified bus 2 appears in the non-swing subset (so it is not
excluded from the correction subsets), and has_converged consults its
active power mismatch: every classified non-swing bus and every load
bus is within threshold, yet has_converged is false because of the
unclassified bus. -/
theorem unknown_bus_in_subsets_cex :
    (pvPqEstimates Nq sC1).map (fun e => e.bus_type) = [BusType.UNKNOWN, BusType.PQ] ∧
      hasConverged Nq sC1 = some false ∧
      ((pvPqEstimates Nq sC1).filter
          (fun e => decide (e.bus_type ≠ BusType.UNKNOWN))).all
        (fun e => decide (|e.active_power_error| ≤ sC1.max_active_power_error)) = true ∧
      (pqEstimates Nq sC1).all
        (fun e => decide (|e.reactive_power_error| ≤ sC1.max_reactive_power_error)) = true := by
  refine ⟨?_, h_conv_sC1, ?_, ?_⟩
  · rw [h_pv_sC1]
    rfl
  · rw [h_pv_sC1]
    rfl
  · rw [h_pq_sC1]
    rfl

/-- C1 amended: an unclassified bus is included in the non-swing
subset, exactly like a generation bus (it contributes a Jacobian row
and an active power mismatch entry, receives an angle correction, and
its mismatch is consulted by has_converged), and is excluded only from
the load subset (no reactive power entry, no magnitude correction). -/
theorem unknown_in_pvpq_not_pq (N : Numerics α) (s : Solver α) (e : BusEstimate α)
    (he : e ∈ estimatesList N s) (ht : e.bus_type = BusType.UNKNOWN) :
    e ∈ pvPqEstimates N s ∧ e ∉ pqEstimates N s := by
  constructor
  · rw [pvPqEstimates, List.mem_filter]
    exact ⟨he, by simp [ht]⟩
  · rw [pqEstimates, List.mem_filter]
    intro h
    have h2 := h.2
    simp [ht] at h2

/-- Witness for the amended C1 at the concrete snapshot sC1. -/
theorem unknown_in_pvpq_not_pq_witness :
    (⟨1, BusType.UNKNOWN, 5, 0, -5, 0⟩ : BusEstimate ℚ) ∈ pvPqEstimates Nq sC1 ∧
      (⟨1, BusType.UNKNOWN, 5, 0, -5, 0⟩ : BusEstimate ℚ) ∉ pqEstimates Nq sC1 :=
  unknown_in_pvpq_not_pq Nq sC1 _ (by rw [h_est_sC1]; simp) rfl

/-- C2 counterexample to the claim as stated: at the concrete snapshot
sC2 the computed correction vector x does not satisfy Jacobian times x
equal to the negated mismatch vector (it satisfies the positive one,
and the mismatch vector is nonzero). -/
theorem corrections_negated_mismatch_cex :
    corrections Nq sC2 = some [0, -1] ∧
      ¬ (jacobian Nq sC2).mulVec (vecOf (dim Nq sC2) [0, -1]) = -(errVec Nq sC2) := by
  refine ⟨corrections_sC2, ?_⟩
  intro h
  have hpos := (corrections_sound Nq sC2 [0, -1] corrections_sC2).2
  rw [hpos] at h
  have h0 := congrFun h ⟨0, by decide⟩
  simp only [errVec, vecOf, h_err_sC2, Pi.neg_apply] at h0
  norm_num at h0

/-- Witness for the amended C2 at the concrete snapshot sC2. -/
theorem corrections_solve_linear_system_witness :
    (jacobian Nq sC2).mulVec (vecOf (dim Nq sC2) [0, -1]) = errVec Nq sC2 :=
  corrections_solve_linear_system Nq sC2 [0, -1] corrections_sC2

/-- Witness for C3 at the concrete snapshot sC1. -/
theorem jacobian_matches_spec_witness :
    jacobian Nq sC1 ⟨0, by decide⟩ ⟨1, by decide⟩ = specJacEntry Nq sC1 0 1 :=
  jacobian_matches_spec Nq sC1 (by decide) 0 1 (by decide) (by decide)

/-- Witness for C4 at the concrete snapshot sC1 and bus index 1. -/
theorem estimates_match_power_equations_witness :
    (estimatesList Nq sC1).getD 1 defaultEstimate =
      { bus := 1
        bus_type := busType sC1.swing_bus_number (busAt sC1.buses 1)
        active_power := specP Nq sC1.Y sC1.buses 1 (busAt sC1.buses 1)
        reactive_power := specQ Nq sC1.Y sC1.buses 1 (busAt sC1.buses 1)
        active_power_error := ((busAt sC1.buses 1).active_power_generated -
          (busAt sC1.buses 1).active_power_consumed -
          specP Nq sC1.Y sC1.buses 1 (busAt sC1.buses 1))
        reactive_power_error := (-(busAt sC1.buses 1).reactive_power_consumed -
          specQ Nq sC1.Y sC1.buses 1 (busAt sC1.buses 1)) } :=
  estimates_match_power_equations Nq sC1 (by decide) 1 (by decide)

/-- Witness for C5 at the concrete snapshot sC2. -/
theorem step_solves_and_splits_witness :
    ∃ xs, corrections Nq sC2 = some xs ∧
      xs.length = npv Nq sC2 + npq Nq sC2 ∧
      (jacobian Nq sC2).mulVec (vecOf (dim Nq sC2) xs) = errVec Nq sC2 ∧
      sC2next.buses = applyMagnitudePass Nq
        (applyAnglePass Nq sC2.buses
          ((xs.take (npv Nq sC2)).zip (pvPqEstimates Nq sC2)))
        ((xs.drop (npv Nq sC2)).zip (pqEstimates Nq sC2)) :=
  step_solves_and_splits Nq sC2 sC2next step_sC2

/-- Witness for C6 at the concrete snapshot sC2. -/
theorem hasConverged_iff_max_mismatch_witness :
    hasConverged Nq sC2 = some true ↔
      ((∀ e ∈ pvPqEstimates Nq sC2,
          |e.active_power_error| ≤ sC2.max_active_power_error) ∧
       (∀ e ∈ pqEstimates Nq sC2,
          |e.reactive_power_error| ≤ sC2.max_reactive_power_error)) :=
  hasConverged_iff_max_mismatch Nq sC2 (by decide) (by decide)

/-- Witness for C7 at the concrete snapshot sC2. -/
theorem step_applies_polar_updates_witness :
    (∀ n s2, stepIter Nq n sC2 = some s2 →
      ∀ i, i < sC2.buses.length → (busAt sC2.buses i).number = sC2.swing_bus_number →
        busAt s2.buses i = busAt sC2.buses i) ∧
    (∀ s2 xs, step Nq sC2 = some s2 → corrections Nq sC2 = some xs →
      s2.buses.length = sC2.buses.length ∧
      (∀ i, i < sC2.buses.length → (∀ e ∈ pvPqEstimates Nq sC2, e.bus ≠ i) →
        busAt s2.buses i = busAt sC2.buses i) ∧
      (∀ r, r < npv Nq sC2 →
        ((pvPqEstimates Nq sC2).getD r defaultEstimate).bus_type ≠ BusType.PQ →
        busAt s2.buses ((pvPqEstimates Nq sC2).getD r defaultEstimate).bus =
          angleUpdated Nq
            (busAt sC2.buses ((pvPqEstimates Nq sC2).getD r defaultEstimate).bus)
            (xs.getD r 0)) ∧
      (∀ r t, r < npv Nq sC2 → t < npq Nq sC2 →
        (pvPqEstimates Nq sC2).getD r defaultEstimate =
          (pqEstimates Nq sC2).getD t defaultEstimate →
        busAt s2.buses ((pvPqEstimates Nq sC2).getD r defaultEstimate).bus =
          magUpdated Nq
            (angleUpdated Nq
              (busAt sC2.buses ((pvPqEstimates Nq sC2).getD r defaultEstimate).bus)
              (xs.getD r 0))
            (xs.getD (npv Nq sC2 + t) 0))) :=
  step_applies_polar_updates Nq sC2 (by decide)

/-- Witness for C9 at the concrete bus list of sC2. -/
theorem zero_corrections_identity_witness :
    applyCorrections Nq sC2.buses (pvPqEstimates Nq sC2) (pqEstimates Nq sC2)
      (List.replicate
        ((pvPqEstimates Nq sC2).length + (pqEstimates Nq sC2).length) 0) =
      sC2.buses :=
  zero_corrections_identity Nq sC2.buses (pvPqEstimates Nq sC2) (pqEstimates Nq sC2)
    (by
      intro b hb
      simp only [sC2, List.mem_cons, List.not_mem_nil, or_false] at hb
      rcases hb with h | h <;> subst h <;> norm_num [recompose, Nq])

/-- Witness for C10 at the concrete snapshot sC10, which has no load
bus. -/
theorem hasConverged_error_on_empty_subset_witness :
    hasConverged Nq sC10 = none :=
  hasConverged_error_on_empty_subset Nq sC10 (Or.inr (by decide))

end PowerFlow
